import Mathlib

/-!
Verification development for the GitHub-Releases portfolio manager
(`update_portfolio.sh`, second script: `extract_photo_info`,
`scan_portfolio`, `manage_release`, `update_photo`, and the `setup`
command that chains `manage_release` then `scan_portfolio`).

The metadata file `photos.json` is a JSON array of objects; we model a
JSON value as `JVal`, an object as an association list `Obj` (jq
preserves key order; `.[$field] = $value` replaces an existing key in
place and appends a new key at the end), and the on-disk state as
`PState` (the optional contents of `photos.json` plus whether the
GitHub release exists).  Shell strings are modelled as `String`, with
the character-level operations (`sed 's/\.[^.]*$//'`, the bash regexes
and `tr '[:lower:]' '[:upper:]'`) spelled out on `List Char`.
-/

namespace Portfolio

/-- JSON values appearing in `photos.json`: `jq -n` writes numbers for
`$photo_id` (`--argjson`), strings for every `--arg`, and literal
`null` for `lat`/`lng`. -/
inductive JVal where
  | jnull : JVal
  | jnum : Nat → JVal
  | jstr : String → JVal
deriving DecidableEq

/-- A JSON object, as jq keeps it: an ordered list of key-value pairs. -/
abbrev Obj := List (String × JVal)

/-- Field access `.k` in jq: the value at the first occurrence of the
key, `null` when the key is absent. -/
def getField (o : Obj) (k : String) : JVal :=
  match o with
  | [] => JVal.jnull
  | (k', v) :: rest => if k' = k then v else getField rest k

/-- Field assignment `.[$field] = $value` in jq: replace the value of an
existing key in place, or append the new key at the end. -/
def setField (o : Obj) (k : String) (v : JVal) : Obj :=
  if o.any (fun p => p.1 = k) then
    o.map (fun p => if p.1 = k then (k, v) else p)
  else o ++ [(k, v)]

/-- Configuration constant `GITHUB_USER` of the script. -/
def githubUser : String := "jodiejacobs"

/-- Configuration constant `REPO_NAME` of the script. -/
def repoName : String := "jodiejacobs-photography"

/-- Configuration constant `RELEASE_TAG` of the script. -/
def releaseTag : String := "v1.0.0"

/-- Configuration constant `BASE_URL`:
`https://github.com/$GITHUB_USER/$REPO_NAME/releases/download/$RELEASE_TAG`. -/
def baseUrl : String :=
  "https://github.com/" ++ githubUser ++ "/" ++ repoName ++ "/releases/download/" ++ releaseTag

/-- Bool-valued test that `pre` is a leading segment of `l`. -/
def leadsWith : List Char → List Char → Bool
  | [], _ => true
  | _ :: _, [] => false
  | a :: as, b :: bs => a == b && leadsWith as bs

/-- Bool-valued test that `needle` occurs contiguously inside `hay`:
the unanchored bash `=~` match of a plain alternation branch. -/
def containsSub (needle : List Char) : List Char → Bool
  | [] => leadsWith needle []
  | c :: cs => leadsWith needle (c :: cs) || containsSub needle cs

/-- `sed 's/\.[^.]*$//'` on the basename: drop the last dot and
everything after it; leave a dot-free name unchanged. -/
def stripExt (s : List Char) : List Char :=
  if s.contains '.' then ((s.reverse.dropWhile (fun c => c ≠ '.')).drop 1).reverse else s

/-- Keyword alternation `(street|urban|city)` of `extract_photo_info`. -/
def streetKeywords : List (List Char) := ["street".data, "urban".data, "city".data]

/-- Keyword alternation `(face|portrait|person|people)`. -/
def facesKeywords : List (List Char) := ["face".data, "portrait".data, "person".data, "people".data]

/-- Keyword alternation `(nature|landscape|forest|mountain|ocean|tree)`. -/
def natureKeywords : List (List Char) := ["nature".data, "landscape".data, "forest".data, "mountain".data, "ocean".data, "tree".data]

/-- Whether some keyword of the group occurs in the basename: the bash
`[[ "$basename" =~ (k1|k2|...) ]]` test. -/
def matchesAny (kws : List (List Char)) (b : List Char) : Bool :=
  kws.any (fun k => containsSub k b)

/-- Category branch of `extract_photo_info`: `category="street"` is the
default, then the three keyword regex tests run in order. -/
def categoryChars (b : List Char) : List Char :=
  if matchesAny streetKeywords b then "street".data
  else if matchesAny facesKeywords b then "faces".data
  else if matchesAny natureKeywords b then "nature".data
  else "street".data

/-- Title branch of `extract_photo_info`: if `_([^_]+)$` matches (the
basename has an underscore with a nonempty tail after the last one),
uppercase that tail, else uppercase the whole basename
(`tr '[:lower:]' '[:upper:]'`). -/
def titleChars (b : List Char) : List Char :=
  if b.contains '_' && !((b.reverse.takeWhile (fun c => c ≠ '_')).reverse.isEmpty) then
    (b.reverse.takeWhile (fun c => c ≠ '_')).reverse.map Char.toUpper
  else b.map Char.toUpper

/-- Keyword groups in the order the script tests them, paired with the
category each assigns; used by the spec-side `specCategory`. -/
def keywordGroups : List (List (List Char) × List Char) :=
  [(streetKeywords, "street".data), (facesKeywords, "faces".data), (natureKeywords, "nature".data)]

/-- The default category the script configures (`category="street"`). -/
def defaultCategory : List Char := "street".data

/-- Spec-side category assignment, written from the spec's words for
comparison with the code's `categoryChars`: the first keyword group
with a match, in the fixed priority order street > faces > nature,
wins; the configured default category is assigned when none match. -/
def specCategory (b : List Char) : List Char :=
  match keywordGroups.find? (fun g => matchesAny g.1 b) with
  | some g => g.2
  | none => defaultCategory

/-- Embedding of `extract_photo_info`: strip the extension from the
bare filename, then classify.  The shell function returns the pair
joined as `"$category|$title"` and `scan_portfolio` immediately splits
it again with `cut -d'|'`; the composition is modelled as the pair. -/
def extract_photo_info (filename : String) : String × String :=
  let b := stripExt filename.data
  (⟨categoryChars b⟩, ⟨titleChars b⟩)

/-- The object `jq -n` builds for one scanned file in `scan_portfolio`,
keys in the order of the jq program text; `today` is `date +%Y-%m-%d`. -/
def mkPhoto (i : Nat) (filename today : String) : Obj :=
  [("id", JVal.jnum i),
   ("title", JVal.jstr (extract_photo_info filename).2),
   ("category", JVal.jstr (extract_photo_info filename).1),
   ("thumbnail", JVal.jstr (baseUrl ++ "/" ++ filename)),
   ("full", JVal.jstr (baseUrl ++ "/" ++ filename)),
   ("lat", JVal.jnull),
   ("lng", JVal.jnull),
   ("location", JVal.jstr "Unknown"),
   ("date", JVal.jstr today),
   ("filename", JVal.jstr filename),
   ("original_file", JVal.jstr filename)]

/-- Loop body of `scan_portfolio`: `photo_id` starts at `i` and is
incremented after each file, each file appending its object. -/
def scanFrom (i : Nat) (today : String) : List String → List Obj
  | [] => []
  | f :: fs => mkPhoto i f today :: scanFrom (i + 1) today fs

/-- Embedding of `scan_portfolio`: `photo_id=1`, `photos_array="[]"`,
then one object per globbed image file; the result is what is written
to `photos.json` (overwriting it).  `files` is the glob result
(basenames), `today` the current date. -/
def scan_portfolio (files : List String) (today : String) : List Obj :=
  scanFrom 1 today files

/-- On-disk state the script manipulates: the contents of
`photos.json` (`none` while the file does not exist) and whether the
GitHub release `RELEASE_TAG` exists. -/
structure PState where
  metadata : Option (List Obj)
  releaseExists : Bool
deriving DecidableEq

/-- Fatal outcomes of the modelled commands: `update_photo`'s
`photos.json not found`, `manage_release`'s `No image files found`, and
a failing `gh release create` upload (which `set -e` turns into an
abort). -/
inductive PError where
  | photosJsonNotFound
  | noImageFiles
  | uploadFailed
deriving DecidableEq

/-- Running `scan_portfolio` as a state transition: it writes
`photos.json` from the directory listing alone. -/
def scanStep (files : List String) (today : String) (s : PState) : PState :=
  { s with metadata := some (scan_portfolio files today) }

/-- Embedding of `update_photo`: abort if `photos.json` is missing,
else run the jq program
`map(if .filename == $filename then .[$field] = $value else . end)`
and write the result back.  All three arguments enter jq via `--arg`,
so the stored value is always a JSON string. -/
def update_photo (s : PState) (filename field value : String) : Except PError PState :=
  match s.metadata with
  | none => Except.error PError.photosJsonNotFound
  | some m => Except.ok { s with metadata := some (m.map (fun o =>
      if getField o "filename" = JVal.jstr filename then setField o field (JVal.jstr value) else o)) }

/-- Embedding of `manage_release`: if the release exists and `--force`
was not given, return with no uploads; otherwise (after deleting the
old release under `--force`) fail when no image files exist, else
upload every image with one `gh release create` call.  `uploadOk` is
the hosting collaborator: the call succeeds only when every per-file
upload succeeds, and under `set -e` a failure aborts the run.  The
returned list is the files uploaded by this invocation. -/
def manage_release (force : Bool) (files : List String) (uploadOk : String → Bool) (s : PState) :
    Except PError (PState × List String) :=
  if s.releaseExists && !force then Except.ok (s, [])
  else if files.isEmpty then Except.error PError.noImageFiles
  else if files.all uploadOk then Except.ok ({ s with releaseExists := true }, files)
  else Except.error PError.uploadFailed

/-- The `setup` command: `manage_release` then `scan_portfolio`; the
scan (and hence the write of `photos.json`) happens only when
`manage_release` did not abort. -/
def setupRun (force : Bool) (files : List String) (today : String) (uploadOk : String → Bool)
    (s : PState) : Except PError (PState × List String) :=
  match manage_release force files uploadOk s with
  | Except.error e => Except.error e
  | Except.ok (s1, up) => Except.ok (scanStep files today s1, up)

/-- Bool view of success of a modelled command. -/
def resultOk {α : Type} (e : Except PError α) : Bool :=
  match e with
  | Except.ok _ => true
  | Except.error _ => false

/-- The metadata list inside a successful result, `[]` otherwise. -/
def metaOf (e : Except PError PState) : List Obj :=
  match e with
  | Except.ok st => st.metadata.getD []
  | Except.error _ => []

/-- Decidable equality of command results, so that the modelled
commands can be evaluated on concrete inputs. -/
instance instDecEqExcept {ε α : Type} [DecidableEq ε] [DecidableEq α] :
    DecidableEq (Except ε α) := fun a b =>
  match a, b with
  | Except.ok x, Except.ok y =>
    if h : x = y then isTrue (by rw [h]) else isFalse (fun hc => by cases hc; exact h rfl)
  | Except.error x, Except.error y =>
    if h : x = y then isTrue (by rw [h]) else isFalse (fun hc => by cases hc; exact h rfl)
  | Except.ok _, Except.error _ => isFalse (fun hc => by cases hc)
  | Except.error _, Except.ok _ => isFalse (fun hc => by cases hc)

theorem getField_mkPhoto_id (i : Nat) (f d : String) :
    getField (mkPhoto i f d) "id" = JVal.jnum i := rfl

theorem getField_mkPhoto_title (i : Nat) (f d : String) :
    getField (mkPhoto i f d) "title" = JVal.jstr (extract_photo_info f).2 := rfl

theorem getField_mkPhoto_category (i : Nat) (f d : String) :
    getField (mkPhoto i f d) "category" = JVal.jstr (extract_photo_info f).1 := rfl

theorem getField_mkPhoto_lat (i : Nat) (f d : String) :
    getField (mkPhoto i f d) "lat" = JVal.jnull := rfl

theorem getField_mkPhoto_lng (i : Nat) (f d : String) :
    getField (mkPhoto i f d) "lng" = JVal.jnull := rfl

theorem getField_mkPhoto_filename (i : Nat) (f d : String) :
    getField (mkPhoto i f d) "filename" = JVal.jstr f := rfl

theorem getField_mapSet_same (k : String) (v : JVal) (o : Obj)
    (h : o.any (fun p => p.1 = k) = true) :
    getField (o.map (fun p => if p.1 = k then (k, v) else p)) k = v := by
  induction o with
  | nil => simp at h
  | cons hd tl ih =>
    obtain ⟨k1, v1⟩ := hd
    rw [List.map_cons]
    by_cases h1 : k1 = k
    · show getField ((if k1 = k then (k, v) else (k1, v1)) :: _) k = v
      rw [if_pos h1]
      show (if k = k then v else _) = v
      rw [if_pos rfl]
    · show getField ((if k1 = k then (k, v) else (k1, v1)) :: _) k = v
      rw [if_neg h1]
      show (if k1 = k then v1 else getField (tl.map _) k) = v
      rw [if_neg h1]
      apply ih
      simp only [List.any_cons, Bool.or_eq_true, decide_eq_true_eq] at h
      rcases h with h | h
      · exact absurd h h1
      · exact h

theorem getField_append_single (k : String) (v : JVal) (o : Obj)
    (h : o.any (fun p => p.1 = k) = false) :
    getField (o ++ [(k, v)]) k = v := by
  induction o with
  | nil => simp [getField]
  | cons hd tl ih =>
    obtain ⟨k1, v1⟩ := hd
    simp only [List.any_cons, Bool.or_eq_false_iff, decide_eq_false_iff_not] at h
    simp [getField, h.1, ih (by simpa using h.2)]

theorem getField_setField_same (o : Obj) (k : String) (v : JVal) :
    getField (setField o k v) k = v := by
  unfold setField
  by_cases h : o.any (fun p => p.1 = k) = true
  · simp [h, getField_mapSet_same k v o h]
  · simp only [Bool.not_eq_true] at h
    simp [h, getField_append_single k v o h]

theorem getField_mapSet_other (k q : String) (v : JVal) (o : Obj) (h : q ≠ k) :
    getField (o.map (fun p => if p.1 = k then (k, v) else p)) q = getField o q := by
  induction o with
  | nil => rfl
  | cons hd tl ih =>
    obtain ⟨k1, v1⟩ := hd
    rw [List.map_cons]
    by_cases h1 : k1 = k
    · have h2 : ¬(k = q) := fun hc => h hc.symm
      have h3 : ¬(k1 = q) := by rw [h1]; exact h2
      show getField ((if k1 = k then (k, v) else (k1, v1)) :: _) q = _
      rw [if_pos h1]
      show (if k = q then v else getField (tl.map _) q) = (if k1 = q then v1 else getField tl q)
      rw [if_neg h2, if_neg h3, ih]
    · show getField ((if k1 = k then (k, v) else (k1, v1)) :: _) q = _
      rw [if_neg h1]
      show (if k1 = q then v1 else getField (tl.map _) q)
          = (if k1 = q then v1 else getField tl q)
      by_cases h2 : k1 = q
      · rw [if_pos h2, if_pos h2]
      · rw [if_neg h2, if_neg h2, ih]

theorem getField_append_other (k q : String) (v : JVal) (o : Obj) (h : q ≠ k) :
    getField (o ++ [(k, v)]) q = getField o q := by
  induction o with
  | nil =>
    have h2 : k ≠ q := fun hc => h hc.symm
    simp [getField, h2]
  | cons hd tl ih =>
    obtain ⟨k1, v1⟩ := hd
    by_cases h1 : k1 = q
    · simp [getField, h1]
    · simp [getField, h1, ih]

theorem getField_setField_other (o : Obj) (k q : String) (v : JVal) (h : q ≠ k) :
    getField (setField o k v) q = getField o q := by
  unfold setField
  by_cases h1 : o.any (fun p => p.1 = k) = true
  · simp [h1, getField_mapSet_other k q v o h]
  · simp only [Bool.not_eq_true] at h1
    simp [h1, getField_append_other k q v o h]

theorem scanFrom_filenames (d : String) (files : List String) (i : Nat) :
    (scanFrom i d files).map (fun o => getField o "filename") = files.map JVal.jstr := by
  induction files generalizing i with
  | nil => rfl
  | cons f fs ih => simp [scanFrom, getField_mkPhoto_filename, ih]

theorem scanFrom_ids (d : String) (files : List String) (i : Nat) :
    (scanFrom i d files).map (fun o => getField o "id")
      = (List.range files.length).map (fun k => JVal.jnum (i + k)) := by
  induction files generalizing i with
  | nil => rfl
  | cons f fs ih =>
    simp only [scanFrom, List.map_cons, getField_mkPhoto_id, List.length_cons,
      List.range_succ_eq_map, List.map_map]
    refine congrArg₂ List.cons (by rw [Nat.add_zero]) ?_
    rw [ih (i + 1)]
    refine List.map_congr_left (fun k _ => ?_)
    simp [Function.comp]
    omega

theorem scanFrom_mem (d : String) (files : List String) (i : Nat) (o : Obj)
    (ho : o ∈ scanFrom i d files) : ∃ j f, f ∈ files ∧ o = mkPhoto j f d := by
  induction files generalizing i with
  | nil => simp [scanFrom] at ho
  | cons f fs ih =>
    rcases (by simpa [scanFrom] using ho : o = mkPhoto i f d ∨ o ∈ scanFrom (i + 1) d fs) with h | h
    · exact ⟨i, f, by simp, h⟩
    · obtain ⟨j, g, hg, ho'⟩ := ih (i + 1) h
      exact ⟨j, g, by simp [hg], ho'⟩

/-- C1 counterexample: the claim says that after
`update x.jpg title Foo` a subsequent scan still shows `title = "Foo"`;
in the code `scan_portfolio` rebuilds `photos.json` from filename
inference alone, so after the edit (which did store `"Foo"`) the
re-scan shows the derived title `"X"` again. -/
theorem scan_discards_manual_edit :
    (update_photo (scanStep ["x.jpg"] "2026-01-01" ⟨none, false⟩) "x.jpg" "title" "Foo").map
        (fun st => (st.metadata.getD []).map (fun o => getField o "title"))
      = Except.ok [JVal.jstr "Foo"]
    ∧ (update_photo (scanStep ["x.jpg"] "2026-01-01" ⟨none, false⟩) "x.jpg" "title" "Foo").map
        (fun st => ((scanStep ["x.jpg"] "2026-01-01" st).metadata.getD []).map
          (fun o => getField o "title"))
      = Except.ok [JVal.jstr "X"]
    ∧ JVal.jstr "X" ≠ JVal.jstr "Foo" :=
  ⟨by decide, by decide, by decide⟩

/-- C1 amended: `scan_portfolio` is a pure function of the directory
listing and the date that ignores the stored metadata entirely, so a
re-scan overwrites the derived-but-editable fields of every record
with freshly inferred values; a manual edit survives only until the
next scan run. -/
theorem scan_ignores_prior_state (s t : PState) (files : List String) (d : String) :
    (scanStep files d s).metadata = some (scan_portfolio files d)
    ∧ (scanStep files d s).metadata = (scanStep files d t).metadata
    ∧ ∀ o ∈ scan_portfolio files d, ∃ i f, f ∈ files ∧ o = mkPhoto i f d
        ∧ getField o "title" = JVal.jstr (extract_photo_info f).2 := by
  refine ⟨rfl, rfl, ?_⟩
  intro o ho
  obtain ⟨i, f, hf, rfl⟩ := scanFrom_mem d files 1 o ho
  exact ⟨i, f, hf, rfl, getField_mkPhoto_title i f d⟩

/-- C1 amended, witness at a concrete scan. -/
theorem scan_ignores_prior_state_witness :
    ∃ i f, f ∈ ["x.jpg"] ∧ mkPhoto 1 "x.jpg" "2026-01-01" = mkPhoto i f "2026-01-01"
      ∧ getField (mkPhoto 1 "x.jpg" "2026-01-01") "title"
          = JVal.jstr (extract_photo_info f).2 :=
  (scan_ignores_prior_state ⟨some [], true⟩ ⟨none, false⟩ ["x.jpg"] "2026-01-01").2.2
    (mkPhoto 1 "x.jpg" "2026-01-01") (by decide)

/-- C3 counterexample: ids are not stable: while `a.jpg` is present,
`b.jpg` has id 2; after `a.jpg` is removed from the directory, a
re-scan gives `b.jpg` id 1. -/
theorem rescan_reassigns_ids :
    (scan_portfolio ["a.jpg", "b.jpg"] "2026-01-01").map
        (fun o => (getField o "filename", getField o "id"))
      = [(JVal.jstr "a.jpg", JVal.jnum 1), (JVal.jstr "b.jpg", JVal.jnum 2)]
    ∧ (scan_portfolio ["b.jpg"] "2026-01-01").map
        (fun o => (getField o "filename", getField o "id"))
      = [(JVal.jstr "b.jpg", JVal.jnum 1)]
    ∧ JVal.jnum 2 ≠ JVal.jnum 1 :=
  ⟨by decide, by decide, by decide⟩

/-- C3 amended: `scan_portfolio` reassigns ids positionally on every
run: the k-th scanned file gets id k+1 (ids 1..n in scan order, from
`photo_id=1` and `((photo_id++))`), regardless of any previously
assigned ids. -/
theorem scan_ids_positional (files : List String) (d : String) :
    (scan_portfolio files d).map (fun o => getField o "id")
      = (List.range files.length).map (fun k => JVal.jnum (1 + k)) :=
  scanFrom_ids d files 1

/-- C4 counterexample: a record is not retained when its file is
removed: scanning `["a.jpg"]` produces a record for it, but the next
scan of the emptied directory writes an empty array, with no record
for `a.jpg`. -/
theorem removed_file_record_dropped :
    (scan_portfolio ["a.jpg"] "2026-01-01").map (fun o => getField o "filename")
      = [JVal.jstr "a.jpg"]
    ∧ scan_portfolio [] "2026-01-01" = [] :=
  ⟨by decide, rfl⟩

/-- C4 amended: `scan_portfolio` rebuilds the metadata set from the
current directory contents only: the written set holds exactly one
record per currently scanned file, so records of removed files
disappear from it. -/
theorem scan_output_exactly_current_files (files : List String) (d : String) :
    (scan_portfolio files d).map (fun o => getField o "filename") = files.map JVal.jstr :=
  scanFrom_filenames d files 1

/-- C7 counterexample: `update_photo` does not fail on an unknown
filename (the jq `map` simply matches nothing and the set is written
back unchanged) and does not fail on an unrecognized field (jq accepts
any key for `.[$field] = $value`); there is no `RecordNotFound` and no
`InvalidField`. -/
theorem update_accepts_unknown_filename_and_field :
    update_photo ⟨some (scan_portfolio ["a.jpg"] "2026-01-01"), true⟩ "x.jpg" "title" "Foo"
      = Except.ok ⟨some (scan_portfolio ["a.jpg"] "2026-01-01"), true⟩
    ∧ resultOk (update_photo ⟨some (scan_portfolio ["a.jpg"] "2026-01-01"), true⟩
        "a.jpg" "bogus" "v") = true :=
  ⟨by decide, by decide⟩

/-- C7 amended: when `photos.json` exists, `update_photo` always
succeeds, whatever the filename and field: an unknown filename is a
silent no-op that leaves the set unchanged, and any field name is
accepted; the only failure is the missing metadata file. -/
theorem update_total_behavior (m : List Obj) (r : Bool) (f fld v : String) :
    resultOk (update_photo ⟨some m, r⟩ f fld v) = true
    ∧ ((∀ o ∈ m, getField o "filename" ≠ JVal.jstr f) →
        update_photo ⟨some m, r⟩ f fld v = Except.ok ⟨some m, r⟩)
    ∧ update_photo ⟨none, r⟩ f fld v = Except.error PError.photosJsonNotFound := by
  refine ⟨rfl, ?_, rfl⟩
  intro h
  have hstep : update_photo ⟨some m, r⟩ f fld v
      = Except.ok ⟨some (m.map (fun o =>
          if getField o "filename" = JVal.jstr f then setField o fld (JVal.jstr v) else o)), r⟩ := rfl
  have hmap : m.map (fun o =>
      if getField o "filename" = JVal.jstr f then setField o fld (JVal.jstr v) else o) = m := by
    calc m.map (fun o =>
          if getField o "filename" = JVal.jstr f then setField o fld (JVal.jstr v) else o)
        = m.map id := List.map_congr_left (fun o ho => by rw [if_neg (h o ho)]; rfl)
      _ = m := List.map_id m
  rw [hstep, hmap]

/-- C7 amended, witness: a concrete no-op update on a set that does
not contain the target filename. -/
theorem update_total_behavior_witness :
    update_photo ⟨some (scan_portfolio ["a.jpg"] "2026-01-01"), true⟩ "zz.jpg" "title" "Foo"
      = Except.ok ⟨some (scan_portfolio ["a.jpg"] "2026-01-01"), true⟩ :=
  (update_total_behavior (scan_portfolio ["a.jpg"] "2026-01-01") true "zz.jpg" "title" "Foo").2.1
    (by decide)

/-- C9 counterexample: the pairing invariant is not preserved by
edits: scan `a.jpg` (both coordinates null), then
`update a.jpg lat 37.7`; the stored record now has `lat` set (to the
string "37.7") while `lng` is still null. -/
theorem half_coordinate_reachable :
    (update_photo ⟨some (scan_portfolio ["a.jpg"] "2026-01-01"), true⟩ "a.jpg" "lat" "37.7").map
        (fun st => (st.metadata.getD []).map (fun o => (getField o "lat", getField o "lng")))
      = Except.ok [(JVal.jstr "37.7", JVal.jnull)]
    ∧ JVal.jstr "37.7" ≠ JVal.jnull :=
  ⟨by decide, by decide⟩

/-- C9 amended: every record produced by a scan has `lat` and `lng`
both null, so the pairing invariant holds after scans alone; but
`update_photo` accepts a single coordinate field, so the invariant is
not maintained across arbitrary edit sequences. -/
theorem scan_coords_both_null (files : List String) (d : String) (o : Obj)
    (ho : o ∈ scan_portfolio files d) :
    getField o "lat" = JVal.jnull ∧ getField o "lng" = JVal.jnull := by
  obtain ⟨i, f, hf, rfl⟩ := scanFrom_mem d files 1 o ho
  exact ⟨getField_mkPhoto_lat i f d, getField_mkPhoto_lng i f d⟩

/-- C9 amended, witness at a concrete scanned record. -/
theorem scan_coords_both_null_witness :
    getField (mkPhoto 1 "a.jpg" "2026-01-01") "lat" = JVal.jnull
    ∧ getField (mkPhoto 1 "a.jpg" "2026-01-01") "lng" = JVal.jnull :=
  scan_coords_both_null ["a.jpg"] "2026-01-01" (mkPhoto 1 "a.jpg" "2026-01-01") (by decide)

/-- C10: the frame property of `update_photo`: it succeeds, keeps the
set's length, leaves every record whose filename differs from the
argument unchanged at its position, and on a matching record changes
exactly the named field, leaving every other field's value intact. -/
theorem update_photo_frame (m : List Obj) (r : Bool) (f fld v : String) :
    resultOk (update_photo ⟨some m, r⟩ f fld v) = true
    ∧ (metaOf (update_photo ⟨some m, r⟩ f fld v)).length = m.length
    ∧ ∀ (i : Nat) (o : Obj), m[i]? = some o →
        (getField o "filename" ≠ JVal.jstr f →
          (metaOf (update_photo ⟨some m, r⟩ f fld v))[i]? = some o)
        ∧ (getField o "filename" = JVal.jstr f →
          ∃ u, (metaOf (update_photo ⟨some m, r⟩ f fld v))[i]? = some u
            ∧ getField u fld = JVal.jstr v
            ∧ ∀ q, q ≠ fld → getField u q = getField o q) := by
  have hm : metaOf (update_photo ⟨some m, r⟩ f fld v)
      = m.map (fun o =>
          if getField o "filename" = JVal.jstr f then setField o fld (JVal.jstr v) else o) := rfl
  refine ⟨rfl, by rw [hm, List.length_map], ?_⟩
  intro i o hio
  constructor
  · intro hne
    rw [hm, List.getElem?_map, hio]
    show some (if getField o "filename" = JVal.jstr f then setField o fld (JVal.jstr v) else o)
        = some o
    rw [if_neg hne]
  · intro heq
    refine ⟨setField o fld (JVal.jstr v), ?_,
      getField_setField_same o fld (JVal.jstr v),
      fun q hq => getField_setField_other o fld q (JVal.jstr v) hq⟩
    rw [hm, List.getElem?_map, hio]
    show some (if getField o "filename" = JVal.jstr f then setField o fld (JVal.jstr v) else o)
        = some (setField o fld (JVal.jstr v))
    rw [if_pos heq]

/-- C10 witness: a record with a different filename is returned
unchanged at its position. -/
theorem update_photo_frame_witness :
    (metaOf (update_photo ⟨some [mkPhoto 1 "a.jpg" "2026-01-01"], true⟩ "b.jpg" "title" "Foo"))[0]?
      = some (mkPhoto 1 "a.jpg" "2026-01-01") :=
  ((update_photo_frame [mkPhoto 1 "a.jpg" "2026-01-01"] true "b.jpg" "title" "Foo").2.2 0
    (mkPhoto 1 "a.jpg" "2026-01-01") (by decide)).1 (by decide)

/-- C2: idempotence of the publishing run (`setup` without `--force`):
whenever a run succeeds, running it again with the same directory
listing, date and hosting behaviour returns the exact same state
(hence a byte-identical `photos.json`, the URLs being pure functions
of the unchanged configuration) and performs zero uploads, because the
release now exists and `manage_release` returns before uploading. -/
theorem setup_idempotent (files : List String) (d : String) (up : String → Bool)
    (s s1 : PState) (u1 : List String)
    (h : setupRun false files d up s = Except.ok (s1, u1)) :
    setupRun false files d up s1 = Except.ok (s1, []) := by
  by_cases h1 : s.releaseExists = true
  · have hred : setupRun false files d up s = Except.ok (scanStep files d s, []) := by
      unfold setupRun manage_release
      rw [Bool.not_false, Bool.and_true, if_pos h1]
    rw [hred] at h
    obtain ⟨rfl, -⟩ : scanStep files d s = s1 ∧ [] = u1 := by
      refine ⟨?_, ?_⟩ <;> injection h with h' <;> cases h' <;> rfl
    unfold setupRun manage_release
    rw [Bool.not_false, Bool.and_true,
      if_pos (show (scanStep files d s).releaseExists = true from h1)]
    rfl
  · have h1' : s.releaseExists = false := by
      cases hb : s.releaseExists
      · rfl
      · exact absurd hb h1
    by_cases h2 : files.isEmpty = true
    · exfalso
      have : setupRun false files d up s = Except.error PError.noImageFiles := by
        unfold setupRun manage_release
        rw [Bool.not_false, Bool.and_true, if_neg (by rw [h1']; exact Bool.false_ne_true),
          if_pos h2]
      rw [this] at h
      exact Except.noConfusion h
    · by_cases h3 : files.all up = true
      · have hred : setupRun false files d up s
            = Except.ok (scanStep files d { s with releaseExists := true }, files) := by
          unfold setupRun manage_release
          rw [Bool.not_false, Bool.and_true, if_neg (by rw [h1']; exact Bool.false_ne_true),
            if_neg h2, if_pos h3]
        rw [hred] at h
        obtain ⟨rfl, -⟩ :
            scanStep files d { s with releaseExists := true } = s1 ∧ files = u1 := by
          refine ⟨?_, ?_⟩ <;> injection h with h' <;> cases h' <;> rfl
        unfold setupRun manage_release
        rw [Bool.not_false, Bool.and_true,
          if_pos (show (scanStep files d { s with releaseExists := true }).releaseExists = true
            from rfl)]
        rfl
      · exfalso
        have h3' : files.all up = false := by
          cases hb : files.all up
          · rfl
          · exact absurd hb h3
        have : setupRun false files d up s = Except.error PError.uploadFailed := by
          unfold setupRun manage_release
          rw [Bool.not_false, Bool.and_true, if_neg (by rw [h1']; exact Bool.false_ne_true),
            if_neg h2, if_neg (by rw [h3']; exact Bool.false_ne_true)]
        rw [this] at h
        exact Except.noConfusion h

/-- C2 witness: a concrete first run followed by its second run, which
changes nothing and uploads nothing. -/
theorem setup_idempotent_witness :
    setupRun false ["a.jpg"] "2026-01-01" (fun _ => true)
        ⟨some (scan_portfolio ["a.jpg"] "2026-01-01"), true⟩
      = Except.ok (⟨some (scan_portfolio ["a.jpg"] "2026-01-01"), true⟩, []) :=
  setup_idempotent ["a.jpg"] "2026-01-01" (fun _ => true) ⟨none, false⟩
    ⟨some (scan_portfolio ["a.jpg"] "2026-01-01"), true⟩ ["a.jpg"] (by decide)

/-- C8 counterexample: the claim says that when uploading `b.jpg`
fails while `a.jpg` and `c.jpg` succeed, the written set contains
records for the two successes; in the code all images are uploaded by
a single `gh release create` call and `set -e` aborts the run on its
failure, before `scan_portfolio` ever writes `photos.json` — no set
containing only the successes is ever written. -/
theorem failed_upload_writes_nothing :
    setupRun false ["a.jpg", "b.jpg", "c.jpg"] "2026-01-01" (fun f => f != "b.jpg")
        ⟨none, false⟩
      = Except.error PError.uploadFailed := by decide

/-- C8 amended: uploads are all-or-nothing, not skip-and-continue: if
any per-file upload fails, the whole run aborts with no metadata
written; only when every upload succeeds does the run write the set,
which then contains every scanned file. -/
theorem upload_all_or_nothing (files : List String) (d : String) (up : String → Bool)
    (s : PState) (hrel : s.releaseExists = false) :
    ((∃ f ∈ files, up f = false) →
      setupRun false files d up s = Except.error PError.uploadFailed)
    ∧ (files ≠ [] → (∀ f ∈ files, up f = true) →
      setupRun false files d up s
        = Except.ok (⟨some (scan_portfolio files d), true⟩, files)) := by
  constructor
  · rintro ⟨f, hf, hup⟩
    have hne : files.isEmpty = false := by
      cases files with
      | nil => cases hf
      | cons a l => rfl
    have hall : files.all up = false :=
      List.all_eq_false.mpr ⟨f, hf, by rw [hup]; exact Bool.false_ne_true⟩
    unfold setupRun manage_release
    rw [Bool.not_false, Bool.and_true, if_neg (by rw [hrel]; exact Bool.false_ne_true),
      if_neg (by rw [hne]; exact Bool.false_ne_true),
      if_neg (by rw [hall]; exact Bool.false_ne_true)]
  · intro hne hall
    have he : files.isEmpty = false := by
      cases files with
      | nil => exact absurd rfl hne
      | cons a l => rfl
    have ha : files.all up = true := List.all_eq_true.mpr hall
    unfold setupRun manage_release
    rw [Bool.not_false, Bool.and_true, if_neg (by rw [hrel]; exact Bool.false_ne_true),
      if_neg (by rw [he]; exact Bool.false_ne_true), if_pos ha]
    rfl

/-- C8 amended, witness: one failing upload aborts a concrete run. -/
theorem upload_all_or_nothing_witness :
    setupRun false ["a.jpg", "b.jpg", "c.jpg"] "2026-01-01" (fun f => f != "c.jpg")
        ⟨none, false⟩
      = Except.error PError.uploadFailed :=
  (upload_all_or_nothing ["a.jpg", "b.jpg", "c.jpg"] "2026-01-01" (fun f => f != "c.jpg")
      ⟨none, false⟩ rfl).1 ⟨"c.jpg", by decide, by decide⟩

theorem stripExt_append_ext (b : List Char) :
    stripExt (b ++ ".jpg".data) = b := by
  have hc : (b ++ ".jpg".data).contains '.' = true := by
    show (b ++ ".jpg".data).elem '.' = true
    exact List.elem_iff.mpr (List.mem_append_right b (by decide))
  unfold stripExt
  rw [if_pos hc, List.reverse_append,
    show (".jpg".data).reverse = ['g', 'p', 'j', '.'] from rfl]
  simp [List.dropWhile_cons]

theorem titleChars_after_last_underscore (a t : List Char) (ht : t ≠ []) (h1 : '_' ∉ t) :
    titleChars (a ++ '_' :: t) = t.map Char.toUpper := by
  have hsuffix : ((a ++ '_' :: t).reverse.takeWhile (fun c => decide (c ≠ '_'))).reverse = t := by
    rw [List.reverse_append, List.reverse_cons, List.append_assoc, List.singleton_append]
    have hpos : ∀ x ∈ t.reverse, (fun c => decide (c ≠ '_')) x = true := by
      intro x hx
      have hxt : x ∈ t := List.mem_reverse.mp hx
      simp only [decide_eq_true_eq]
      intro hcx
      rw [hcx] at hxt
      exact h1 hxt
    rw [List.takeWhile_append_of_pos hpos, List.takeWhile_cons]
    simp
  have hcont : (a ++ '_' :: t).contains '_' = true := by
    show (a ++ '_' :: t).elem '_' = true
    exact List.elem_iff.mpr (List.mem_append_right a (List.mem_cons_self '_' t))
  have hne : ((a ++ '_' :: t).reverse.takeWhile (fun c => decide (c ≠ '_'))).reverse.isEmpty
      = false := by
    rw [hsuffix]
    exact List.isEmpty_eq_false.mpr ht
  unfold titleChars
  rw [if_pos (show ((a ++ '_' :: t).contains '_'
      && !((a ++ '_' :: t).reverse.takeWhile (fun c => decide (c ≠ '_'))).reverse.isEmpty) = true
    by rw [hcont, hne]; rfl)]
  rw [hsuffix]

/-- C5 counterexample: the claim says `street_002_sunset.jpg`
classifies to `title="Sunset"`; the code uppercases the whole last
token (`tr '[:lower:]' '[:upper:]'`), giving `"SUNSET"`. -/
theorem structured_title_not_capitalized :
    extract_photo_info "street_002_sunset.jpg" ≠ ("street", "Sunset")
    ∧ extract_photo_info "street_002_sunset.jpg" = ("street", "SUNSET") :=
  ⟨by decide, by decide⟩

/-- C5 amended: for a structured name `street_002_<title>.<ext>` the
classifier yields category `"street"` (via the keyword match — there
is no dedicated structured-pattern branch) and as title the last
underscore-separated token uppercased in full, not capitalized;
e.g. `street_002_sunset.jpg` gives `("street", "SUNSET")`. -/
theorem structured_title_fully_uppercased (t : List Char) (ht : t ≠ []) (h1 : '_' ∉ t) :
    extract_photo_info ⟨"street_002_".data ++ t ++ ".jpg".data⟩
      = ("street", ⟨t.map Char.toUpper⟩) := by
  have hb : stripExt (("street_002_".data ++ t) ++ ".jpg".data) = "street_002_".data ++ t :=
    stripExt_append_ext _
  unfold extract_photo_info
  have hdata : (⟨"street_002_".data ++ t ++ ".jpg".data⟩ : String).data
      = ("street_002_".data ++ t) ++ ".jpg".data := by
    show "street_002_".data ++ t ++ ".jpg".data = ("street_002_".data ++ t) ++ ".jpg".data
    rw [List.append_assoc]
  rw [hdata, hb]
  have hcat : categoryChars ("street_002_".data ++ t) = "street".data := rfl
  have htit : titleChars ("street_002_".data ++ t) = t.map Char.toUpper := by
    rw [show "street_002_".data ++ t = "street_002".data ++ '_' :: t from rfl]
    exact titleChars_after_last_underscore "street_002".data t ht h1
  show ((⟨categoryChars ("street_002_".data ++ t)⟩ : String),
      (⟨titleChars ("street_002_".data ++ t)⟩ : String)) = ("street", ⟨t.map Char.toUpper⟩)
  rw [hcat, htit]

/-- C5 amended, witness at the spec's own example token. -/
theorem structured_title_fully_uppercased_witness :
    extract_photo_info ⟨"street_002_".data ++ "sunset".data ++ ".jpg".data⟩
      = ("street", ⟨"sunset".data.map Char.toUpper⟩) :=
  structured_title_fully_uppercased "sunset".data (by decide) (by decide)

/-- C6: keyword classification follows the spec exactly: the code's
category assignment equals the spec-side first-matching-group-in-
priority-order-else-default function on every basename, and the
spec's example `forest_walk.png` classifies to `"nature"`. -/
theorem category_matches_priority_spec :
    (∀ b : List Char, categoryChars b = specCategory b)
    ∧ (extract_photo_info "forest_walk.png").1 = "nature" := by
  constructor
  · intro b
    unfold categoryChars specCategory keywordGroups
    by_cases h1 : matchesAny streetKeywords b = true
    · rw [if_pos h1, List.find?_cons_of_pos (p := fun g : List (List Char) × List Char => matchesAny g.1 b) _ h1]
    · rw [if_neg h1, List.find?_cons_of_neg (p := fun g : List (List Char) × List Char => matchesAny g.1 b) _ h1]
      by_cases h2 : matchesAny facesKeywords b = true
      · rw [if_pos h2, List.find?_cons_of_pos (p := fun g : List (List Char) × List Char => matchesAny g.1 b) _ h2]
      · rw [if_neg h2, List.find?_cons_of_neg (p := fun g : List (List Char) × List Char => matchesAny g.1 b) _ h2]
        by_cases h3 : matchesAny natureKeywords b = true
        · rw [if_pos h3, List.find?_cons_of_pos (p := fun g : List (List Char) × List Char => matchesAny g.1 b) _ h3]
        · rw [if_neg h3, List.find?_cons_of_neg (p := fun g : List (List Char) × List Char => matchesAny g.1 b) _ h3]
          rfl
  · decide

end Portfolio
